import Mathlib

/-!
Shallow embedding of `src/backend/app.py` (a Flask task-manager API) and
proofs about its operations.

The relational store (SQLAlchemy models `User` and `Task`) is embedded as a
`Store` record holding the two tables as lists, together with the
autoincrement counters for the primary keys.  Each HTTP handler becomes a
pure function on `Store`; a handler that commits returns the new store in
`Except.ok`, and an error response becomes `Except.error` of an `ApiError`.
-/

namespace STM

/-- A calendar date, as Python's `datetime.date`.  Python compares dates
lexicographically on (year, month, day). -/
structure DateYMD where
  year : Nat
  month : Nat
  day : Nat
deriving DecidableEq

/-- Comparison `a < b` on Python dates: lexicographic on (year, month, day). -/
def dateBefore (a b : DateYMD) : Bool :=
  if a.year ≠ b.year then a.year < b.year
  else if a.month ≠ b.month then a.month < b.month
  else a.day < b.day

/-- The result of `werkzeug.security.generate_password_hash`: a one-way
salted hash.  Modelled abstractly as a constructor applied to the salt and
the hashed plaintext; the stored value is structurally a hash, never a bare
string. -/
inductive PwHash where
  | hashed (salt : Nat) (plaintext : String)
deriving DecidableEq

/-- Model of `generate_password_hash(pw)`; the salt is drawn by the library, so it is
an explicit parameter here. -/
def generate_password_hash (salt : Nat) (pw : String) : PwHash :=
  PwHash.hashed salt pw

/-- Model of `check_password_hash(stored, pw)`: re-hash `pw` with the stored salt and
compare. -/
def check_password_hash (h : PwHash) (pw : String) : Bool :=
  match h with
  | PwHash.hashed _ p => p == pw

/-- Row of the `user` table: `id` primary key, `username` with a UNIQUE
constraint, `password` holding the hash. -/
structure User where
  id : Nat
  username : String
  password : PwHash
deriving DecidableEq

/-- Row of the `task` table: `id` primary key, `title`, `status`
(default "Pending"), `priority`, `due_date`, `user_id` foreign key. -/
structure Task where
  id : Nat
  title : String
  status : String
  priority : String
  due_date : DateYMD
  user_id : Nat
deriving DecidableEq

instance : Inhabited Task :=
  ⟨⟨0, "", "Pending", "", ⟨1, 1, 1⟩, 0⟩⟩

/-- The database: both tables plus the autoincrement counters for their
primary keys (Postgres serial columns start at 1). -/
structure Store where
  users : List User
  tasks : List Task
  nextUserId : Nat
  nextTaskId : Nat
deriving DecidableEq

/-- Error responses the handlers produce (§7 of the spec).  `DuplicateUser`
is the store rejecting an INSERT that violates the `username` UNIQUE
constraint; `InvalidInput` is the `ValueError` from an unparseable date. -/
inductive ApiError where
  | DuplicateUser
  | InvalidCredentials
  | Unauthorized
  | NotFound
  | InvalidInput
deriving DecidableEq

/-- Handler of `POST /register`: inserts a user with a hashed password.  The route body
performs no duplicate check; the `unique=True` column constraint makes the
store reject the INSERT when the username already exists. -/
def register (s : Store) (username pw : String) (salt : Nat) :
    Except ApiError Store :=
  if s.users.any (fun u => u.username == username) then
    Except.error ApiError.DuplicateUser
  else
    Except.ok
      { s with
        users := s.users ++
          [{ id := s.nextUserId, username := username,
             password := generate_password_hash salt pw }],
        nextUserId := s.nextUserId + 1 }

/-- Handler of `POST /login`: look the username up, check the hash, return the user id
(the identity embedded in the issued token). -/
def login (s : Store) (username pw : String) : Except ApiError Nat :=
  match s.users.find? (fun u => u.username == username) with
  | some u =>
      if check_password_hash u.password pw then Except.ok u.id
      else Except.error ApiError.InvalidCredentials
  | none => Except.error ApiError.InvalidCredentials

/-- Gregorian leap-year rule, as `datetime` uses. -/
def isLeapYear (y : Nat) : Bool :=
  (y % 4 == 0 && y % 100 != 0) || y % 400 == 0

/-- Number of days in month `m` of year `y`, as `datetime` validates. -/
def daysInMonth (y m : Nat) : Nat :=
  if m == 2 then (if isLeapYear y then 29 else 28)
  else if m == 4 || m == 6 || m == 9 || m == 11 then 30
  else 31

/-- Split a character list on `'-'` (groups between dashes, dashes
dropped). -/
def splitOnDash : List Char → List (List Char)
  | [] => [[]]
  | c :: cs =>
    let r := splitOnDash cs
    if c = '-' then [] :: r
    else
      match r with
      | [] => [[c]]
      | g :: gs => (c :: g) :: gs

/-- Decimal value of a digit list. -/
def digitsToNat (cs : List Char) : Nat :=
  cs.foldl (fun n c => n * 10 + (c.toNat - 48)) 0

/-- Model of `datetime.strptime(s, "%Y-%m-%d")` followed by the `datetime`
constructor's range checks: `%Y` matches exactly four digits, `%m` and `%d`
one or two digits, the whole string must be consumed, month must be 1–12,
day must fit the month (leap years included), and the year must be at least
`datetime.MINYEAR = 1`. -/
def parseDate (s : String) : Option DateYMD :=
  match splitOnDash s.data with
  | [ys, ms, ds] =>
    if ys.length == 4 && ys.all Char.isDigit
        && 1 ≤ ms.length && ms.length ≤ 2 && ms.all Char.isDigit
        && 1 ≤ ds.length && ds.length ≤ 2 && ds.all Char.isDigit then
      let y := digitsToNat ys
      let m := digitsToNat ms
      let d := digitsToNat ds
      if 1 ≤ y && 1 ≤ m && m ≤ 12 && 1 ≤ d && d ≤ daysInMonth y m then
        some ⟨y, m, d⟩
      else none
    else none
  | _ => none

/-- Handler of `POST /tasks`: parse the due date (an unparseable one raises, creating
nothing), then insert a task owned by the authenticated user with the
column default `status="Pending"`.  No validation of `priority` occurs. -/
def create_task (s : Store) (user_id : Nat) (title priority due_date : String) :
    Except ApiError Store :=
  match parseDate due_date with
  | none => Except.error ApiError.InvalidInput
  | some d =>
      Except.ok
        { s with
          tasks := s.tasks ++
            [{ id := s.nextTaskId, title := title, status := "Pending",
               priority := priority, due_date := d, user_id := user_id }],
          nextTaskId := s.nextTaskId + 1 }

/-- One serialized task of the `GET /tasks` response. -/
structure TaskView where
  id : Nat
  title : String
  status : String
  priority : String
  due_date : String
deriving DecidableEq

/-- Left-pad a decimal rendering with zeros to width `w`. -/
def padNum (w n : Nat) : String :=
  let s := toString n
  String.mk (List.replicate (w - s.length) '0') ++ s

/-- Model of `date.isoformat()`: zero-padded `YYYY-MM-DD`. -/
def isoFormat (d : DateYMD) : String :=
  padNum 4 d.year ++ "-" ++ padNum 2 d.month ++ "-" ++ padNum 2 d.day

/-- Handler of `GET /tasks`: all tasks with `user_id` equal to the caller, serialized. -/
def list_tasks (s : Store) (user_id : Nat) : List TaskView :=
  (s.tasks.filter (fun t => t.user_id == user_id)).map
    (fun t =>
      { id := t.id, title := t.title, status := t.status,
        priority := t.priority, due_date := isoFormat t.due_date })

/-- The filter of `PUT /tasks/<id>/complete`:
`Task.query.filter_by(id=id, user_id=user_id)`. -/
def taskMatch (id user_id : Nat) (t : Task) : Bool :=
  t.id == id && t.user_id == user_id

/-- The mutation `task.status = "Completed"`. -/
def markCompleted (t : Task) : Task :=
  { t with status := "Completed" }

/-- Apply `f` to the first element satisfying `p` (what mutating the result
of `.first()` does to the table). -/
def updateFirst (p : Task → Bool) (f : Task → Task) : List Task → List Task
  | [] => []
  | t :: ts => if p t then f t :: ts else t :: updateFirst p f ts

/-- Handler of `PUT /tasks/<id>/complete`: 404 when no task with that id is owned by
the caller; otherwise set that task's status to "Completed" and commit. -/
def complete_task (s : Store) (user_id id : Nat) : Except ApiError Store :=
  match s.tasks.find? (taskMatch id user_id) with
  | none => Except.error ApiError.NotFound
  | some _ =>
      Except.ok
        { s with tasks := updateFirst (taskMatch id user_id) markCompleted s.tasks }

/-- The `GET /stats` response body. -/
structure StatsView where
  completed : Nat
  pending : Int
  low : Nat
  medium : Nat
  high : Nat
deriving DecidableEq

/-- Handler of `GET /stats`: per-user totals; `pending = total - completed` (Python
int subtraction), and one count per priority value, status ignored. -/
def stats (s : Store) (user_id : Nat) : StatsView :=
  let total := s.tasks.countP (fun t => t.user_id == user_id)
  let completed :=
    s.tasks.countP (fun t => t.user_id == user_id && t.status == "Completed")
  { completed := completed
    pending := (total : Int) - (completed : Int)
    low := s.tasks.countP (fun t => t.user_id == user_id && t.priority == "Low")
    medium := s.tasks.countP (fun t => t.user_id == user_id && t.priority == "Medium")
    high := s.tasks.countP (fun t => t.user_id == user_id && t.priority == "High") }

/-- The `GET /reminders` response body: lists of titles. -/
structure RemindersView where
  overdue : List String
  today : List String
deriving DecidableEq

/-- Handler of `GET /reminders`: among the caller's non-completed tasks, those strictly
before today and those due today, as titles.  `today` is `date.today()`,
passed explicitly. -/
def reminders (s : Store) (user_id : Nat) (today : DateYMD) : RemindersView :=
  { overdue :=
      (s.tasks.filter (fun t =>
        t.user_id == user_id && t.status != "Completed"
          && dateBefore t.due_date today)).map (fun t => t.title)
    today :=
      (s.tasks.filter (fun t =>
        t.user_id == user_id && t.status != "Completed"
          && t.due_date == today)).map (fun t => t.title) }

/-- The notification line `reminder_job` prints. -/
def reminderMsg (n : Nat) : String :=
  "[REMINDER] " ++ toString n ++ " overdue tasks"

/-- One tick of the background scheduler job: count non-completed overdue
tasks across all users, print one line when the count is positive.  Returns
the (unwritten) store and the emitted lines. -/
def reminder_job (s : Store) (today : DateYMD) : Store × List String :=
  let overdue :=
    s.tasks.countP (fun t => t.status != "Completed" && dateBefore t.due_date today)
  (s, if overdue > 0 then [reminderMsg overdue] else [])

/-- The operations of the system, for frame properties quantifying over
every operation. -/
inductive Op where
  | register (username pw : String) (salt : Nat)
  | login (username pw : String)
  | createTask (user_id : Nat) (title priority due_date : String)
  | listTasks (user_id : Nat)
  | completeTask (user_id id : Nat)
  | stats (user_id : Nat)
  | reminders (user_id : Nat) (today : DateYMD)
  | reminderJob (today : DateYMD)
deriving DecidableEq

/-- The effect of an operation on the store; a failing request commits
nothing, read-only requests commit nothing. -/
def stepStore (s : Store) : Op → Store
  | Op.register u p salt =>
      match register s u p salt with
      | Except.ok s' => s'
      | Except.error _ => s
  | Op.login _ _ => s
  | Op.createTask uid title pri due =>
      match create_task s uid title pri due with
      | Except.ok s' => s'
      | Except.error _ => s
  | Op.listTasks _ => s
  | Op.completeTask uid id =>
      match complete_task s uid id with
      | Except.ok s' => s'
      | Except.error _ => s
  | Op.stats _ => s
  | Op.reminders _ _ => s
  | Op.reminderJob d => (reminder_job s d).1

/-- Well-formedness the primary key guarantees: task ids are pairwise
distinct. -/
def Store.WF (s : Store) : Prop :=
  (s.tasks.map (fun t => t.id)).Nodup

instance (s : Store) : Decidable s.WF := by
  unfold Store.WF
  infer_instance

/-- The fields of a task other than `status`. -/
def sameCore (t t' : Task) : Prop :=
  t'.id = t.id ∧ t'.title = t.title ∧ t'.priority = t.priority ∧
    t'.due_date = t.due_date ∧ t'.user_id = t.user_id

instance (t t' : Task) : Decidable (sameCore t t') := by
  unfold sameCore
  infer_instance

/-! Lemmas about `updateFirst`. -/

theorem updateFirst_length (p : Task → Bool) (f : Task → Task) (l : List Task) :
    (updateFirst p f l).length = l.length := by
  induction l with
  | nil => rfl
  | cons t ts ih =>
    by_cases h : p t = true
    · simp [updateFirst, h]
    · simp [updateFirst, h, ih]

theorem updateFirst_of_find?_eq_none (p : Task → Bool) (f : Task → Task)
    (l : List Task) (h : l.find? p = none) : updateFirst p f l = l := by
  induction l with
  | nil => rfl
  | cons t ts ih =>
    rw [List.find?_eq_none] at h
    have ht : ¬ p t = true := h t (by simp)
    have hts : ts.find? p = none := by
      rw [List.find?_eq_none]
      exact fun x hx => h x (by simp [hx])
    simp [updateFirst, ht, ih hts]

theorem updateFirst_eq_or_set (p : Task → Bool) (f : Task → Task) (l : List Task) :
    updateFirst p f l = l ∨
      ∃ k, ∃ hk : k < l.length, p (l.get ⟨k, hk⟩) = true ∧
        updateFirst p f l = l.set k (f (l.get ⟨k, hk⟩)) := by
  induction l with
  | nil => exact Or.inl rfl
  | cons t ts ih =>
    by_cases h : p t = true
    · exact Or.inr ⟨0, by simp, by simpa using h, by simp [updateFirst, h]⟩
    · rcases ih with heq | ⟨k, hk, hpk, heq⟩
      · exact Or.inl (by simp [updateFirst, h, heq])
      · refine Or.inr ⟨k + 1, by simpa using Nat.succ_lt_succ hk, ?_, ?_⟩
        · simpa using hpk
        · simp [updateFirst, h, heq, List.set_cons_succ]

theorem find?_updateFirst_isSome (p : Task → Bool) (f : Task → Task)
    (hp : ∀ t, p (f t) = p t) (l : List Task) :
    ((updateFirst p f l).find? p).isSome = (l.find? p).isSome := by
  induction l with
  | nil => rfl
  | cons t ts ih =>
    by_cases h : p t = true
    · have hft : p (f t) = true := by rw [hp t]; exact h
      simp [updateFirst, h, List.find?_cons_of_pos, hft]
    · have hft : ¬ p (f t) = true := by rw [hp t]; exact h
      simp [updateFirst, h, List.find?_cons_of_neg, ih]

theorem updateFirst_idem (p : Task → Bool) (f : Task → Task)
    (hp : ∀ t, p (f t) = p t) (hf : ∀ t, f (f t) = f t) (l : List Task) :
    updateFirst p f (updateFirst p f l) = updateFirst p f l := by
  induction l with
  | nil => rfl
  | cons t ts ih =>
    by_cases h : p t = true
    · have hft : p (f t) = true := by rw [hp t]; exact h
      simp [updateFirst, h, hft, hf t]
    · simp [updateFirst, h, ih]

theorem updateFirst_mem_of_find? (p : Task → Bool) (f : Task → Task)
    {l : List Task} {t : Task} (h : l.find? p = some t) :
    f t ∈ updateFirst p f l := by
  induction l with
  | nil => simp at h
  | cons a as ih =>
    by_cases ha : p a = true
    · rw [List.find?_cons_of_pos _ ha] at h
      obtain rfl : a = t := by simpa using h
      simp [updateFirst, ha]
    · rw [List.find?_cons_of_neg _ ha] at h
      simp [updateFirst, ha, ih h]

theorem taskMatch_markCompleted (id uid : Nat) (t : Task) :
    taskMatch id uid (markCompleted t) = taskMatch id uid t := rfl

theorem markCompleted_idem (t : Task) :
    markCompleted (markCompleted t) = markCompleted t := rfl

/-! Claim theorems. -/

/-- C2: registering a free username succeeds and stores a salted hash of the
password (structurally a `PwHash`, never the plaintext); registering the
same username again fails with the duplicate-user error. -/
theorem register_spec (s : Store) (u pw : String) (salt : Nat)
    (h : ∀ usr ∈ s.users, usr.username ≠ u) :
    ∃ s', register s u pw salt = Except.ok s' ∧
      (∃ usr, s'.users = s.users ++ [usr] ∧ usr.username = u ∧
        usr.password = generate_password_hash salt pw) ∧
      (∀ pw' salt', register s' u pw' salt' = Except.error ApiError.DuplicateUser) := by
  have hany : s.users.any (fun x => x.username == u) = false := by
    rw [Bool.eq_false_iff]
    intro hc
    rw [List.any_eq_true] at hc
    obtain ⟨x, hx, hxu⟩ := hc
    exact h x hx (by simpa using hxu)
  refine ⟨{ s with
      users := s.users ++ [⟨s.nextUserId, u, PwHash.hashed salt pw⟩],
      nextUserId := s.nextUserId + 1 }, ?_, ⟨_, rfl, rfl, rfl⟩, ?_⟩
  · simp [register, hany, generate_password_hash]
  · intro pw' salt'
    simp [register, List.any_append]

/-- C3: an unparseable due date makes `create_task` fail with `InvalidInput`
and leaves the store untouched; a parseable one appends a task owned by the
caller with status "Pending" and the parsed date. -/
theorem create_task_spec (s : Store) (uid : Nat) (title pri due : String) :
    (parseDate due = none →
      create_task s uid title pri due = Except.error ApiError.InvalidInput ∧
      stepStore s (Op.createTask uid title pri due) = s) ∧
    (∀ d, parseDate due = some d →
      ∃ s', create_task s uid title pri due = Except.ok s' ∧
        s'.users = s.users ∧
        ∃ t, s'.tasks = s.tasks ++ [t] ∧ t.user_id = uid ∧
          t.status = "Pending" ∧ t.title = title ∧ t.priority = pri ∧
          t.due_date = d) := by
  constructor
  · intro hp
    exact ⟨by simp [create_task, hp], by simp [stepStore, create_task, hp]⟩
  · intro d hp
    refine ⟨{ s with
        tasks := s.tasks ++
          [{ id := s.nextTaskId, title := title, status := "Pending",
             priority := pri, due_date := d, user_id := uid }],
        nextTaskId := s.nextTaskId + 1 }, ?_, rfl, ⟨_, rfl, rfl, rfl, rfl, rfl, rfl⟩⟩
    simp [create_task, hp]

/-- C4: `complete_task` fails with `NotFound` exactly when the caller owns
no task with that id; failure leaves the store unchanged, success marks a
task with that id, owned by the caller, "Completed" and keeps the user
table. -/
theorem complete_task_spec (s : Store) (uid id : Nat) :
    (complete_task s uid id = Except.error ApiError.NotFound ↔
      ∀ t ∈ s.tasks, ¬(t.id = id ∧ t.user_id = uid)) ∧
    (complete_task s uid id = Except.error ApiError.NotFound →
      stepStore s (Op.completeTask uid id) = s) ∧
    ((∃ t ∈ s.tasks, t.id = id ∧ t.user_id = uid) →
      ∃ s', complete_task s uid id = Except.ok s' ∧ s'.users = s.users ∧
        ∃ t' ∈ s'.tasks, t'.id = id ∧ t'.user_id = uid ∧
          t'.status = "Completed") := by
  have hiff : s.tasks.find? (taskMatch id uid) = none ↔
      ∀ t ∈ s.tasks, ¬(t.id = id ∧ t.user_id = uid) := by
    rw [List.find?_eq_none]
    constructor
    · intro hnone t ht htm
      exact hnone t ht (by simp [taskMatch, htm.1, htm.2])
    · intro hall t ht hm
      exact hall t ht (by simpa [taskMatch] using hm)
  refine ⟨?_, ?_, ?_⟩
  · constructor
    · intro h
      cases hf : s.tasks.find? (taskMatch id uid) with
      | none => exact hiff.mp hf
      | some t0 => simp [complete_task, hf] at h
    · intro h
      simp [complete_task, hiff.mpr h]
  · intro h
    simp [stepStore, h]
  · intro hex
    have hsome : (s.tasks.find? (taskMatch id uid)).isSome = true := by
      rw [List.find?_isSome]
      obtain ⟨t, ht, h1, h2⟩ := hex
      exact ⟨t, ht, by simp [taskMatch, h1, h2]⟩
    cases hf : s.tasks.find? (taskMatch id uid) with
    | none => rw [hf] at hsome; simp at hsome
    | some t0 =>
      have hm : taskMatch id uid t0 = true := List.find?_some hf
      have hm' : t0.id = id ∧ t0.user_id = uid := by simpa [taskMatch] using hm
      refine ⟨{ s with tasks := updateFirst (taskMatch id uid) markCompleted s.tasks },
        by simp [complete_task, hf], rfl,
        markCompleted t0, updateFirst_mem_of_find? _ _ hf, hm'.1, hm'.2, rfl⟩

/-- C5: `complete_task` is idempotent: once it has succeeded, running it
again on the same task succeeds and returns the very same store, and the
task is recorded as "Completed". -/
theorem complete_task_idempotent (s : Store) (uid id : Nat) (s₁ : Store)
    (h : complete_task s uid id = Except.ok s₁) :
    complete_task s₁ uid id = Except.ok s₁ ∧
      ∃ t ∈ s₁.tasks, t.id = id ∧ t.user_id = uid ∧ t.status = "Completed" := by
  cases hf : s.tasks.find? (taskMatch id uid) with
  | none => simp [complete_task, hf] at h
  | some t0 =>
    have hm : taskMatch id uid t0 = true := List.find?_some hf
    have hm' : t0.id = id ∧ t0.user_id = uid := by simpa [taskMatch] using hm
    have hs₁ : s₁ = { s with tasks := updateFirst (taskMatch id uid) markCompleted s.tasks } := by
      have := h
      simp [complete_task, hf] at this
      exact this.symm
    subst hs₁
    have hp : ∀ t, taskMatch id uid (markCompleted t) = taskMatch id uid t :=
      fun t => rfl
    have hsome :
        ((updateFirst (taskMatch id uid) markCompleted s.tasks).find?
          (taskMatch id uid)).isSome = true := by
      rw [find?_updateFirst_isSome _ _ hp, hf]
      rfl
    cases hf2 : (updateFirst (taskMatch id uid) markCompleted s.tasks).find?
        (taskMatch id uid) with
    | none => rw [hf2] at hsome; simp at hsome
    | some t1 =>
      refine ⟨?_, markCompleted t0, updateFirst_mem_of_find? _ _ hf, hm'.1, hm'.2, rfl⟩
      simp [complete_task, hf2]
      exact updateFirst_idem _ _ hp markCompleted_idem s.tasks

theorem countP_bucket_sum (l : List Task) (uid : Nat)
    (h : ∀ t ∈ l, t.user_id = uid →
      t.priority = "Low" ∨ t.priority = "Medium" ∨ t.priority = "High") :
    l.countP (fun t => t.user_id == uid && t.priority == "Low")
      + l.countP (fun t => t.user_id == uid && t.priority == "Medium")
      + l.countP (fun t => t.user_id == uid && t.priority == "High")
      = l.countP (fun t => t.user_id == uid) := by
  induction l with
  | nil => rfl
  | cons t ts ih =>
    have ih' := ih (fun x hx hu => h x (by simp [hx]) hu)
    by_cases hu : t.user_id = uid
    · rcases h t (by simp) hu with hp | hp | hp <;>
      · simp [List.countP_cons, hu, hp]
        omega
    · simp [List.countP_cons, hu, ih']

/-- C6: `stats` satisfies `pending + completed = total tasks owned`, each
priority bucket counts the user's tasks with that priority regardless of
status, and the three buckets sum to the total when every task of the user
carries one of the three priorities. -/
theorem stats_spec (s : Store) (uid : Nat) :
    ((stats s uid).pending + ((stats s uid).completed : Int)
        = (s.tasks.countP (fun t => t.user_id == uid) : Int)) ∧
    ((stats s uid).completed
        = s.tasks.countP (fun t => t.user_id == uid && t.status == "Completed")) ∧
    ((stats s uid).low
        = s.tasks.countP (fun t => t.user_id == uid && t.priority == "Low")) ∧
    ((stats s uid).medium
        = s.tasks.countP (fun t => t.user_id == uid && t.priority == "Medium")) ∧
    ((stats s uid).high
        = s.tasks.countP (fun t => t.user_id == uid && t.priority == "High")) ∧
    ((∀ t ∈ s.tasks, t.user_id = uid →
        t.priority = "Low" ∨ t.priority = "Medium" ∨ t.priority = "High") →
      (stats s uid).low + (stats s uid).medium + (stats s uid).high
        = s.tasks.countP (fun t => t.user_id == uid)) := by
  refine ⟨?_, rfl, rfl, rfl, rfl, ?_⟩
  · simp only [stats]
    ring
  · exact countP_bucket_sum s.tasks uid

/-- C7: `reminders` returns as overdue exactly the titles of the caller's
non-completed tasks strictly before today, as today exactly those due
today, and each list arises from tasks none of which is completed. -/
theorem reminders_spec (s : Store) (uid : Nat) (d : DateYMD) :
    (∀ x : String, x ∈ (reminders s uid d).overdue ↔
      ∃ t ∈ s.tasks, t.user_id = uid ∧ ¬ t.status = "Completed" ∧
        dateBefore t.due_date d = true ∧ t.title = x) ∧
    (∀ x : String, x ∈ (reminders s uid d).today ↔
      ∃ t ∈ s.tasks, t.user_id = uid ∧ ¬ t.status = "Completed" ∧
        t.due_date = d ∧ t.title = x) ∧
    (∃ lo : List Task, (reminders s uid d).overdue = lo.map (fun t => t.title) ∧
      ∀ t ∈ lo, t.user_id = uid ∧ ¬ t.status = "Completed" ∧
        dateBefore t.due_date d = true) ∧
    (∃ lt : List Task, (reminders s uid d).today = lt.map (fun t => t.title) ∧
      ∀ t ∈ lt, t.user_id = uid ∧ ¬ t.status = "Completed" ∧ t.due_date = d) := by
  refine ⟨?_, ?_, ⟨_, rfl, ?_⟩, ⟨_, rfl, ?_⟩⟩
  · intro x
    simp [reminders, List.mem_map, List.mem_filter, and_assoc]
  · intro x
    simp [reminders, List.mem_map, List.mem_filter, and_assoc]
  · intro t ht
    have := List.mem_filter.mp ht
    simpa [and_assoc] using this.2
  · intro t ht
    have := List.mem_filter.mp ht
    simpa [and_assoc] using this.2

/-- C8: one tick of the background job reads the store without writing it,
and emits exactly one notification carrying the count of non-completed
overdue tasks across all users when that count is positive, nothing
otherwise. -/
theorem reminder_job_spec (s : Store) (d : DateYMD) :
    (reminder_job s d).1 = s ∧
    ((reminder_job s d).2 =
      if 0 < (s.tasks.filter (fun t =>
          decide (¬ t.status = "Completed" ∧ dateBefore t.due_date d = true))).length
      then [reminderMsg ((s.tasks.filter (fun t =>
          decide (¬ t.status = "Completed" ∧ dateBefore t.due_date d = true))).length)]
      else []) ∧
    (reminder_job s d).2.length ≤ 1 := by
  have hpred : ∀ t ∈ s.tasks, (t.status != "Completed" && dateBefore t.due_date d)
      = decide (¬ t.status = "Completed" ∧ dateBefore t.due_date d = true) := by
    intro t _
    by_cases h1 : t.status = "Completed" <;>
      by_cases h2 : dateBefore t.due_date d = true <;> simp [h1, h2]
  have hcount :
      s.tasks.countP (fun t => t.status != "Completed" && dateBefore t.due_date d)
        = (s.tasks.filter (fun t =>
            decide (¬ t.status = "Completed" ∧ dateBefore t.due_date d = true))).length := by
    rw [List.countP_eq_length_filter, List.filter_congr hpred]
  refine ⟨rfl, ?_, ?_⟩
  · simp only [reminder_job, hcount]
  · simp only [reminder_job]
    split <;> simp

/-! Frame lemmas for `stepStore`. -/

theorem getD_set_ne (l : List Task) (k j : Nat) (a : Task) (hjk : j ≠ k) :
    (l.set k a).getD j default = l.getD j default := by
  by_cases hj : j < l.length
  · rw [List.getD_eq_getElem _ _ (by rw [List.length_set]; exact hj),
      List.getD_eq_getElem _ _ hj]
    exact List.getElem_set_ne (fun hkj => hjk hkj.symm) _
  · rw [List.getD_eq_default _ _ (by rw [List.length_set]; omega),
      List.getD_eq_default _ _ (by omega)]

theorem getD_set_self (l : List Task) (k : Nat) (a : Task) (hk : k < l.length) :
    (l.set k a).getD k default = a := by
  rw [List.getD_eq_getElem _ _ (by rw [List.length_set]; exact hk)]
  exact List.getElem_set_self _

theorem getD_append_left (l rest : List Task) (i : Nat) (h : i < l.length) :
    (l ++ rest).getD i default = l.getD i default := by
  rw [List.getD_eq_getElem _ _ (by rw [List.length_append]; omega),
    List.getD_eq_getElem _ _ h]
  exact List.getElem_append_left h

theorem stepStore_completeTask_effect (s : Store) (uid id : Nat) :
    (stepStore s (Op.completeTask uid id)).users = s.users ∧
    (stepStore s (Op.completeTask uid id)).nextUserId = s.nextUserId ∧
    (stepStore s (Op.completeTask uid id)).nextTaskId = s.nextTaskId ∧
    ((stepStore s (Op.completeTask uid id)).tasks = s.tasks ∨
      ∃ k, ∃ hk : k < s.tasks.length,
        taskMatch id uid (s.tasks.get ⟨k, hk⟩) = true ∧
        (stepStore s (Op.completeTask uid id)).tasks
          = s.tasks.set k (markCompleted (s.tasks.get ⟨k, hk⟩))) := by
  cases hf : s.tasks.find? (taskMatch id uid) with
  | none =>
    simp [stepStore, complete_task, hf]
  | some t0 =>
    refine ⟨by simp [stepStore, complete_task, hf], by simp [stepStore, complete_task, hf],
      by simp [stepStore, complete_task, hf], ?_⟩
    have htasks : (stepStore s (Op.completeTask uid id)).tasks
        = updateFirst (taskMatch id uid) markCompleted s.tasks := by
      simp [stepStore, complete_task, hf]
    rcases updateFirst_eq_or_set (taskMatch id uid) markCompleted s.tasks with
      heq | ⟨k, hk, hpk, heq⟩
    · exact Or.inl (htasks.trans heq)
    · exact Or.inr ⟨k, hk, hpk, htasks.trans heq⟩

theorem stepStore_tasks_append (s : Store) (op : Op)
    (hop : ∀ uid id, op ≠ Op.completeTask uid id) :
    ∃ rest, (stepStore s op).tasks = s.tasks ++ rest := by
  cases op with
  | register u p salt =>
    by_cases hc : s.users.any (fun x => x.username == u) = true
    · exact ⟨[], by simp [stepStore, register, hc]⟩
    · exact ⟨[], by simp [stepStore, register, hc]⟩
  | login _ _ => exact ⟨[], by simp [stepStore]⟩
  | createTask uid title pri due =>
    cases hp : parseDate due with
    | none => exact ⟨[], by simp [stepStore, create_task, hp]⟩
    | some d =>
      refine ⟨[⟨s.nextTaskId, title, "Pending", pri, d, uid⟩], ?_⟩
      simp [stepStore, create_task, hp]
  | listTasks _ => exact ⟨[], by simp [stepStore]⟩
  | completeTask uid id => exact absurd rfl (hop uid id)
  | stats _ => exact ⟨[], by simp [stepStore]⟩
  | reminders _ _ => exact ⟨[], by simp [stepStore]⟩
  | reminderJob d => exact ⟨[], by simp [stepStore, reminder_job]⟩

/-- C9: after any operation every pre-existing task (by position) still has
its id, title, priority, due date and owner, and its status changed only if
the operation was `complete_task` aimed at its id; `complete_task` keeps the
user table and both counters, keeps the number of tasks, and changes at
most one position of the task table. -/
theorem task_fields_immutable (s : Store) (op : Op) (i : Nat)
    (h : i < s.tasks.length) :
    (i < (stepStore s op).tasks.length ∧
      sameCore (s.tasks.getD i default) ((stepStore s op).tasks.getD i default) ∧
      (((stepStore s op).tasks.getD i default).status
          = (s.tasks.getD i default).status ∨
        ∃ uid, op = Op.completeTask uid ((s.tasks.getD i default).id) ∧
          ((stepStore s op).tasks.getD i default).status = "Completed")) ∧
    (∀ uid id,
      (stepStore s (Op.completeTask uid id)).users = s.users ∧
      (stepStore s (Op.completeTask uid id)).nextUserId = s.nextUserId ∧
      (stepStore s (Op.completeTask uid id)).nextTaskId = s.nextTaskId ∧
      (stepStore s (Op.completeTask uid id)).tasks.length = s.tasks.length ∧
      (∀ j k : Nat,
        (stepStore s (Op.completeTask uid id)).tasks.getD j default
            ≠ s.tasks.getD j default →
        (stepStore s (Op.completeTask uid id)).tasks.getD k default
            ≠ s.tasks.getD k default → j = k)) := by
  constructor
  · by_cases hct : ∃ uid id, op = Op.completeTask uid id
    · obtain ⟨uid, id, rfl⟩ := hct
      obtain ⟨-, -, -, heff⟩ := stepStore_completeTask_effect s uid id
      rcases heff with heq | ⟨k, hk, hpk, heq⟩
      · rw [heq]
        exact ⟨h, ⟨rfl, rfl, rfl, rfl, rfl⟩, Or.inl rfl⟩
      · rw [heq]
        refine ⟨by rw [List.length_set]; exact h, ?_, ?_⟩
        · by_cases hik : i = k
          · subst hik
            rw [getD_set_self _ _ _ h, List.getD_eq_getElem _ _ h]
            exact ⟨rfl, rfl, rfl, rfl, rfl⟩
          · rw [getD_set_ne _ _ _ _ hik]
            exact ⟨rfl, rfl, rfl, rfl, rfl⟩
        · by_cases hik : i = k
          · subst hik
            right
            refine ⟨uid, ?_, ?_⟩
            · have hid : (s.tasks.getD i default).id = id := by
                rw [List.getD_eq_getElem _ _ h]
                have hm := hpk
                simp [taskMatch] at hm
                exact hm.1
              rw [hid]
            · rw [getD_set_self _ _ _ h]
              rfl
          · rw [getD_set_ne _ _ _ _ hik]
            exact Or.inl rfl
    · push_neg at hct
      obtain ⟨rest, hrest⟩ := stepStore_tasks_append s op (fun uid id => hct uid id)
      rw [hrest]
      refine ⟨by rw [List.length_append]; omega, ?_, Or.inl ?_⟩
      · rw [getD_append_left _ _ _ h]
        exact ⟨rfl, rfl, rfl, rfl, rfl⟩
      · rw [getD_append_left _ _ _ h]
  · intro uid id
    obtain ⟨hu, hnu, hnt, heff⟩ := stepStore_completeTask_effect s uid id
    rcases heff with heq | ⟨k, hk, hpk, heq⟩
    · rw [heq]
      exact ⟨hu, hnu, hnt, rfl, fun j k hj _ => absurd rfl hj⟩
    · rw [heq]
      refine ⟨hu, hnu, hnt, List.length_set _ _ _, ?_⟩
      intro j k' hj hk'
      by_cases hjk : j = k
      · by_cases hk'k : k' = k
        · rw [hjk, hk'k]
        · exact absurd (getD_set_ne _ _ _ _ hk'k) hk'
      · exact absurd (getD_set_ne _ _ _ _ hjk) hj

/-! Erase lemmas for the isolation claim. -/

theorem countP_erase_of_neg (q : Task → Bool) (t : Task) (hq : q t = false)
    (l : List Task) : (l.erase t).countP q = l.countP q := by
  induction l with
  | nil => rfl
  | cons a as ih =>
    rw [List.erase_cons]
    by_cases hat : a = t
    · subst hat
      simp [List.countP_cons, hq]
    · have hbeq : (a == t) = false := by simp [hat]
      simp [hbeq, List.countP_cons, ih]

theorem filter_erase_of_neg (q : Task → Bool) (t : Task) (hq : q t = false)
    (l : List Task) : (l.erase t).filter q = l.filter q := by
  induction l with
  | nil => rfl
  | cons a as ih =>
    rw [List.erase_cons]
    by_cases hat : a = t
    · subst hat
      simp [List.filter_cons, hq]
    · have hbeq : (a == t) = false := by simp [hat]
      simp [hbeq, List.filter_cons, ih]

/-- C1: with distinct task ids, a task owned by user `a` neither shows up in
user `b`'s task list, nor influences `b`'s stats or reminders (removing it
changes neither), and `b`'s `complete_task` on its id fails with `NotFound`
leaving the store untouched. -/
theorem per_user_isolation (s : Store) (d : DateYMD) (a b : Nat) (t : Task)
    (hWF : s.WF) (hab : a ≠ b) (ht : t ∈ s.tasks) (hta : t.user_id = a) :
    (∀ v ∈ list_tasks s b, v.id ≠ t.id) ∧
    stats s b = stats { s with tasks := s.tasks.erase t } b ∧
    reminders s b d = reminders { s with tasks := s.tasks.erase t } b d ∧
    complete_task s b t.id = Except.error ApiError.NotFound ∧
    stepStore s (Op.completeTask b t.id) = s := by
  have hWF' : (s.tasks.map (fun x => x.id)).Nodup := hWF
  have hid : ∀ u ∈ s.tasks, u.id = t.id → u = t := by
    intro u hu he
    exact List.inj_on_of_nodup_map hWF' hu ht he
  have htb : (t.user_id == b) = false := by
    simp [hta]
    exact hab
  have hnone : s.tasks.find? (taskMatch t.id b) = none := by
    rw [List.find?_eq_none]
    intro u hu hm
    simp [taskMatch] at hm
    have hut : u = t := hid u hu hm.1
    rw [hut, hta] at hm
    exact hab hm.2
  refine ⟨?_, ?_, ?_, ?_, ?_⟩
  · intro v hv hvid
    simp only [list_tasks, List.mem_map, List.mem_filter] at hv
    obtain ⟨u, ⟨hu, hub⟩, rfl⟩ := hv
    have hut : u = t := hid u hu hvid
    rw [hut, hta] at hub
    simp at hub
    exact hab hub
  · have h1 := countP_erase_of_neg (fun x => x.user_id == b) t
      (by simp [htb]) s.tasks
    have h2 := countP_erase_of_neg (fun x => x.user_id == b && x.status == "Completed") t
      (by simp [htb]) s.tasks
    have h3 := countP_erase_of_neg (fun x => x.user_id == b && x.priority == "Low") t
      (by simp [htb]) s.tasks
    have h4 := countP_erase_of_neg (fun x => x.user_id == b && x.priority == "Medium") t
      (by simp [htb]) s.tasks
    have h5 := countP_erase_of_neg (fun x => x.user_id == b && x.priority == "High") t
      (by simp [htb]) s.tasks
    simp only [stats]
    rw [h1, h2, h3, h4, h5]
  · have h6 := filter_erase_of_neg
      (fun x => x.user_id == b && x.status != "Completed" && dateBefore x.due_date d) t
      (by simp [htb]) s.tasks
    have h7 := filter_erase_of_neg
      (fun x => x.user_id == b && x.status != "Completed" && x.due_date == d) t
      (by simp [htb]) s.tasks
    simp only [reminders]
    rw [h6, h7]
  · simp [complete_task, hnone]
  · simp [stepStore, complete_task, hnone]

/-! Concrete fixtures. -/

/-- A store with one user, for exercising registration and creation. -/
def wStore2 : Store :=
  { users := [⟨1, "alice", PwHash.hashed 7 "pw1"⟩],
    tasks := [], nextUserId := 2, nextTaskId := 1 }

/-- A two-user, two-task store. -/
def wStore : Store :=
  { users := [⟨1, "alice", PwHash.hashed 7 "pw1"⟩, ⟨2, "bob", PwHash.hashed 8 "pw2"⟩],
    tasks := [⟨1, "Pay rent", "Pending", "High", ⟨2024, 1, 1⟩, 1⟩,
      ⟨2, "Walk dog", "Pending", "Low", ⟨2024, 6, 1⟩, 2⟩],
    nextUserId := 3, nextTaskId := 3 }

/-- The first task of `wStore`, owned by user 1. -/
def wTask : Task := ⟨1, "Pay rent", "Pending", "High", ⟨2024, 1, 1⟩, 1⟩

/-- Store `wStore` after user 1 completes task 1. -/
def wStoreC : Store :=
  { wStore with
    tasks := [⟨1, "Pay rent", "Completed", "High", ⟨2024, 1, 1⟩, 1⟩,
      ⟨2, "Walk dog", "Pending", "Low", ⟨2024, 6, 1⟩, 2⟩] }

/-- Store `wStore2` after user 1 creates a task with the out-of-range priority
"Urgent". -/
def wStoreP : Store :=
  stepStore wStore2 (Op.createTask 1 "misc" "Urgent" "2024-05-05")

/-- C10: `create_task` accepts the priority "Urgent", which is outside
{Low, Medium, High}; the resulting task is counted in the status totals of
`stats` but in no priority bucket, so the three buckets sum to strictly
less than `pending + completed`. -/
theorem no_priority_validation :
    create_task wStore2 1 "misc" "Urgent" "2024-05-05" = Except.ok wStoreP ∧
    (∃ t ∈ wStoreP.tasks, t.priority = "Urgent" ∧
      ¬ t.priority = "Low" ∧ ¬ t.priority = "Medium" ∧ ¬ t.priority = "High") ∧
    (((stats wStoreP 1).low + (stats wStoreP 1).medium
        + (stats wStoreP 1).high : Int)
      < (stats wStoreP 1).pending + ((stats wStoreP 1).completed : Int)) := by
  refine ⟨rfl, ?_, ?_⟩
  · decide
  · decide

/-! Witness theorems. -/

theorem per_user_isolation_witness :
    wStore.WF ∧ (1 : Nat) ≠ 2 ∧ wTask ∈ wStore.tasks ∧ wTask.user_id = 1 ∧
    ((∀ v ∈ list_tasks wStore 2, v.id ≠ wTask.id) ∧
      stats wStore 2 = stats { wStore with tasks := wStore.tasks.erase wTask } 2 ∧
      reminders wStore 2 ⟨2024, 6, 1⟩
        = reminders { wStore with tasks := wStore.tasks.erase wTask } 2 ⟨2024, 6, 1⟩ ∧
      complete_task wStore 2 wTask.id = Except.error ApiError.NotFound ∧
      stepStore wStore (Op.completeTask 2 wTask.id) = wStore) :=
  ⟨by decide, by decide, by decide, by decide,
    per_user_isolation wStore ⟨2024, 6, 1⟩ 1 2 wTask (by decide) (by decide)
      (by decide) (by decide)⟩

theorem register_spec_witness :
    (∀ usr ∈ wStore2.users, usr.username ≠ "bob") ∧
    (∃ s', register wStore2 "bob" "hunter2" 9 = Except.ok s' ∧
      (∃ usr, s'.users = wStore2.users ++ [usr] ∧ usr.username = "bob" ∧
        usr.password = generate_password_hash 9 "hunter2") ∧
      (∀ pw' salt', register s' "bob" pw' salt' = Except.error ApiError.DuplicateUser)) :=
  ⟨by decide, register_spec wStore2 "bob" "hunter2" 9 (by decide)⟩

theorem complete_task_idempotent_witness :
    complete_task wStore 1 1 = Except.ok wStoreC ∧
    (complete_task wStoreC 1 1 = Except.ok wStoreC ∧
      ∃ t ∈ wStoreC.tasks, t.id = 1 ∧ t.user_id = 1 ∧ t.status = "Completed") :=
  ⟨rfl, complete_task_idempotent wStore 1 1 wStoreC rfl⟩

theorem task_fields_immutable_witness :
    0 < wStore.tasks.length ∧
    ((0 < (stepStore wStore (Op.completeTask 1 1)).tasks.length ∧
      sameCore (wStore.tasks.getD 0 default)
        ((stepStore wStore (Op.completeTask 1 1)).tasks.getD 0 default) ∧
      (((stepStore wStore (Op.completeTask 1 1)).tasks.getD 0 default).status
          = (wStore.tasks.getD 0 default).status ∨
        ∃ uid, Op.completeTask 1 1
            = Op.completeTask uid ((wStore.tasks.getD 0 default).id) ∧
          ((stepStore wStore (Op.completeTask 1 1)).tasks.getD 0 default).status
            = "Completed")) ∧
    (∀ uid id,
      (stepStore wStore (Op.completeTask uid id)).users = wStore.users ∧
      (stepStore wStore (Op.completeTask uid id)).nextUserId = wStore.nextUserId ∧
      (stepStore wStore (Op.completeTask uid id)).nextTaskId = wStore.nextTaskId ∧
      (stepStore wStore (Op.completeTask uid id)).tasks.length = wStore.tasks.length ∧
      (∀ j k : Nat,
        (stepStore wStore (Op.completeTask uid id)).tasks.getD j default
            ≠ wStore.tasks.getD j default →
        (stepStore wStore (Op.completeTask uid id)).tasks.getD k default
            ≠ wStore.tasks.getD k default → j = k))) :=
  ⟨by decide, task_fields_immutable wStore (Op.completeTask 1 1) 0 (by decide)⟩

end STM
